import Mathlib

/-!
Verification of the MOF RAC-descriptor pipeline
(`molSimplify/Informatics/MOF/MOF_descriptors.py`).

The development shallowly embeds the parts of the pipeline that the
specification talks about:

* the control flow of `get_MOF_descriptors` (validator failure branches,
  the featurization dispatch on the number of identified linkers, and the
  three optional diagnostics), with Python exceptions modelled as
  `Except` errors and log-file writes modelled as an accumulated list of
  messages;
* the seed-removal-set computation at the start of partitioning,
  as a `Finset` computation over an abstract bonded cell graph;
* the linker/ligand reclassification pass (the reversed loop that pops
  entries from the candidate list);
* the descriptor assembly of `make_MOF_SBU_RACs` / `make_MOF_linker_RACs`,
  with the external autocorrelation kernels kept abstract and the
  numpy `mean(axis=0)` aggregation modelled componentwise over `ℚ`
  (floating point is abstracted to exact rationals, so every descriptor
  value is a finite number by typing);
* the append-only behaviour of the three descriptor csv tables.
-/

/-! ## Pipeline control-flow model (`get_MOF_descriptors`, lines 848-1212) -/

/-- A Python value appearing in the returned names/values sequences:
the sentinel pairs hold numbers (`[0]`, `[1]`) while the featurized pair
holds descriptor-name strings and rational descriptor values. -/
inductive PyVal where
  | s (v : String)
  | q (v : ℚ)
deriving DecidableEq

/-- The pair `(full_names, full_descriptors)` returned to the caller. -/
structure RetPair where
  names : List PyVal
  vals : List PyVal
deriving DecidableEq

/-- Python exceptions that can escape `get_MOF_descriptors`:
the explicit `ValueError` raised when no output path is supplied, and a
generic uncaught exception (e.g. one raised inside an unwrapped
diagnostic). -/
inductive PyErr where
  | valueError
  | exn
deriving DecidableEq

instance : DecidableEq (Except PyErr RetPair) := fun a b =>
  match a, b with
  | .error x, .error y =>
    if h : x = y then .isTrue (by rw [h]) else .isFalse (by simp [h])
  | .error _, .ok _ => .isFalse (by simp)
  | .ok _, .error _ => .isFalse (by simp)
  | .ok x, .ok y =>
    if h : x = y then .isTrue (by rw [h]) else .isFalse (by simp [h])

/-- The observable outcome of one call: either an exception escaping to
the caller or a returned pair, together with the failure/diagnostic log
lines written along the way. -/
structure RunOut where
  result : Except PyErr RetPair
  log : List String
deriving DecidableEq

/-- Abstract input state of one `get_MOF_descriptors` call.  Geometry,
file parsing and the graph algorithms feeding the branches are collapsed
into the facts the branches test: whether an output path was supplied,
the atom count and ceiling, whether bond detection raises the overlap
error, whether a metal exists, whether some connected component has no
metal, the number of linker subgraphs left after the reclassification
pass, the featurization payload that `make_MOF_SBU_RACs` /
`make_MOF_linker_RACs` would produce, the three diagnostic flags and
whether each diagnostic body would raise. -/
structure MOFInput where
  pathProvided : Bool
  numAtoms : ℕ
  maxNumAtoms : ℕ
  graphProvided : Bool
  atomicOverlap : Bool
  hasMetal : Bool
  solventComponentExists : Bool
  numLinkers : ℕ
  featNames : List String
  featVals : List ℚ
  getBondInfo : Bool
  surroundedSbuGen : Bool
  detectRod : Bool
  bondInfoRaises : Bool
  surroundedRaises : Bool
  rodRaises : Bool
deriving DecidableEq

/-- The four validator failure branches of `get_MOF_descriptors`
(lines 916-980), in source order; each returns a sentinel through
`failure_response` with its own log message. -/
def validator_failure (inp : MOFInput) : Option String :=
  if inp.maxNumAtoms < inp.numAtoms then some "large primitive cell"
  else if inp.graphProvided = false ∧ inp.atomicOverlap = true then some "atomic overlap"
  else if inp.hasMetal = false then some "no metal found"
  else if inp.solventComponentExists = true then some "solvent molecules"
  else none

/-- The sentinel pair `([0], [0])` built by `failure_response`. -/
def sentinel_pair : RetPair :=
  { names := [PyVal.q 0], vals := [PyVal.q 0] }

/-- The featurization dispatch of lines 1173-1190, exactly as written in
the source: the first branch tests `len(linker_subgraphlist) >= 1`, so
the `elif len(linker_subgraphlist) == 1` branch (returning `([1], [1])`)
is unreachable. -/
def featurization_dispatch (n : ℕ) (featNames : List String) (featVals : List ℚ) : RetPair :=
  if 1 ≤ n then
    { names := featNames.map PyVal.s, vals := featVals.map PyVal.q }
  else if n = 1 then
    { names := [PyVal.q 1], vals := [PyVal.q 1] }
  else
    sentinel_pair

/-- The failure-log line written at lines 1191-1194 when the returned
pair is degenerate. -/
def few_linkers_msg : String :=
  "Only zero or one total linkers identified."

/-- The log line written when the wrapped surrounded-SBU diagnostic
raises (lines 1202-1207). -/
def surrounded_fail_msg : String :=
  "Failed to generate surrounded SBU"

/-- Control flow of `get_MOF_descriptors` (lines 848-1212).  In source
order: the missing-output-path check raises `ValueError`; the four
validator branches return a sentinel pair and log; the featurization
dispatch runs; the degenerate-pair failure log is written; then the
three optional diagnostics run — `bond_information_write` (line 1199)
and `detect_1D_rod` (line 1210) are called without any `try`, so a raise
inside them escapes, while `surrounded_sbu_gen` (lines 1202-1207) is
wrapped in `try/except` which only writes a log line.  Descriptor values
are modelled as `ℚ`, so the defensive mixed-typing `AssertionError` of
`make_MOF_SBU_RACs` (lines 261-264) never fires in the model. -/
def get_MOF_descriptors (inp : MOFInput) : RunOut :=
  if inp.pathProvided = false then
    { result := .error .valueError, log := [] }
  else
    match validator_failure inp with
    | some msg => { result := .ok sentinel_pair, log := [msg] }
    | none =>
      let pair := featurization_dispatch inp.numLinkers inp.featNames inp.featVals
      let log1 : List String :=
        if pair.names.length ≤ 1 ∧ pair.vals.length ≤ 1 then [few_linkers_msg] else []
      if inp.getBondInfo = true ∧ inp.bondInfoRaises = true then
        { result := .error .exn, log := log1 }
      else
        let log2 := log1 ++
          (if inp.surroundedSbuGen = true ∧ inp.surroundedRaises = true
            then [surrounded_fail_msg] else [])
        if inp.detectRod = true ∧ inp.rodRaises = true then
          { result := .error .exn, log := log2 }
        else
          { result := .ok pair, log := log2 }

/-- An input passes validation when a path is supplied and none of the
four validator failure branches fires. -/
def passes_validation (inp : MOFInput) : Prop :=
  inp.pathProvided = true ∧ validator_failure inp = none

/-- Input exhibiting the dead `elif` branch: the reclassification pass
left exactly one linker subgraph. -/
def c1_input : MOFInput :=
  { pathProvided := true, numAtoms := 10, maxNumAtoms := 2000,
    graphProvided := false, atomicOverlap := false, hasMetal := true,
    solventComponentExists := false, numLinkers := 1,
    featNames := ["f-chi-0", "f-chi-1"], featVals := [3, 4],
    getBondInfo := false, surroundedSbuGen := false, detectRod := false,
    bondInfoRaises := false, surroundedRaises := false, rodRaises := false }

/-- Input calling `get_MOF_descriptors` without an output path. -/
def c2_input : MOFInput :=
  { pathProvided := false, numAtoms := 10, maxNumAtoms := 2000,
    graphProvided := false, atomicOverlap := false, hasMetal := true,
    solventComponentExists := false, numLinkers := 2,
    featNames := ["f-chi-0", "f-chi-1"], featVals := [3, 4],
    getBondInfo := false, surroundedSbuGen := false, detectRod := false,
    bondInfoRaises := false, surroundedRaises := false, rodRaises := false }

/-- Input on which the bond-length-statistics diagnostic raises: the run
passes validation, featurizes, and `bond_information_write` fails. -/
def c3_input : MOFInput :=
  { pathProvided := true, numAtoms := 10, maxNumAtoms := 2000,
    graphProvided := false, atomicOverlap := false, hasMetal := true,
    solventComponentExists := false, numLinkers := 2,
    featNames := ["f-chi-0", "f-chi-1"], featVals := [3, 4],
    getBondInfo := true, surroundedSbuGen := false, detectRod := false,
    bondInfoRaises := true, surroundedRaises := false, rodRaises := false }

/-! ## Seed removal set (`get_MOF_descriptors`, lines 995-1017) -/

/-- The bonded unit-cell graph as the partitioner sees it: an atom count,
the bond relation (row `i` of the adjacency matrix read as
`getBondedAtomsSmart i`), and the two element predicates the code tests
(`atom3D.ismetal()` and `symbol().upper() == 'H'`). -/
structure CellGraph where
  n : ℕ
  adj : ℕ → ℕ → Bool
  isMetal : ℕ → Bool
  isH : ℕ → Bool

/-- All atom indices of the unit cell. -/
def CellGraph.atomsF (g : CellGraph) : Finset ℕ := Finset.range g.n

/-- `molcif.findMetal(transition_metals_only=False)`: the metal atoms. -/
def CellGraph.metals (g : CellGraph) : Finset ℕ :=
  g.atomsF.filter (fun i => g.isMetal i = true)

/-- `molcif.getBondedAtomsSmart(i)`: the atoms bonded to atom `i`. -/
def CellGraph.bonded (g : CellGraph) (i : ℕ) : Finset ℕ :=
  g.atomsF.filter (fun j => g.adj i j = true)

/-- `SBUlist` right after lines 999-1000: all metals plus every atom
bonded to a metal (the first coordination shell). -/
def CellGraph.SBUlist0 (g : CellGraph) : Finset ℕ :=
  g.metals ∪ g.metals.biUnion g.bonded

/-- `removelist` after lines 1001-1010: the metals, plus every atom of
`SBUlist` all of whose bonded neighbours are metals or hydrogens. -/
def CellGraph.removelist_step2 (g : CellGraph) : Finset ℕ :=
  g.metals ∪
    g.SBUlist0.filter (fun a => ∀ v ∈ g.bonded a, g.isMetal v = true ∨ g.isH v = true)

/-- `removelist` after the loop of lines 1014-1017, the final seed
removal set: the previous set plus every hydrogen bonded to an atom of
`SBUlist` (the metals and their first coordination shell). -/
def CellGraph.removelist (g : CellGraph) : Finset ℕ :=
  g.removelist_step2 ∪
    (g.SBUlist0.biUnion g.bonded).filter (fun v => g.isH v = true)

/-- The seed removal set exactly as the claim words it: all metal atoms,
plus atoms whose every bonded neighbour is a metal or hydrogen, plus
hydrogens bonded to atoms already in the removal set — and nothing
else. -/
def CellGraph.claimedSeedSet (g : CellGraph) : Finset ℕ :=
  let s12 := g.metals ∪
    g.atomsF.filter (fun a => ∀ v ∈ g.bonded a, g.isMetal v = true ∨ g.isH v = true)
  s12 ∪ g.atomsF.filter (fun v => g.isH v = true ∧ ∃ a ∈ s12, g.adj a v = true)

/-- The seed removal set as amended to match the code: all metal atoms,
plus first-coordination-shell atoms (metals or atoms bonded to a metal)
whose every bonded neighbour is a metal or hydrogen, plus hydrogens
bonded to any first-coordination-shell atom. -/
def CellGraph.amendedSeedSet (g : CellGraph) : Finset ℕ :=
  g.metals ∪
    g.atomsF.filter (fun a =>
      (g.isMetal a = true ∨ ∃ m ∈ g.metals, g.adj m a = true) ∧
        ∀ v ∈ g.bonded a, g.isMetal v = true ∨ g.isH v = true) ∪
    g.atomsF.filter (fun v =>
      g.isH v = true ∧
        ∃ a ∈ g.atomsF,
          (g.isMetal a = true ∨ ∃ m ∈ g.metals, g.adj m a = true) ∧ g.adj a v = true)

/-- Counterexample cell: atom 0 a metal, atom 1 an oxygen bonded to the
metal, to a carbon (atom 2) and to a hydrogen (atom 3).  The code adds
the hydrogen to the removal set (it is bonded to the first-shell atom 1)
although atom 1 is not in the removal set. -/
def c5_graph : CellGraph :=
  { n := 4,
    adj := fun i j =>
      ([(0, 1), (1, 0), (1, 2), (2, 1), (1, 3), (3, 1)] : List (ℕ × ℕ)).contains (i, j),
    isMetal := fun i => i == 0,
    isH := fun i => i == 3 }

/-! ## Linker/ligand reclassification pass
(`get_MOF_descriptors`, lines 1053-1125) -/

/-- The evidence gathered for one candidate substructure before it is
classified: `len(linkeranchors_list)` (anchors), `len(sbu_connect_list)`
(distinct initial SBU subgraphs touched), and the numbers of distinct
periodic images `len(np.unique(pr_image_organic, axis=0))` and
`len(np.unique(pr_image_sbu, axis=0))` that `ligand_detect` reports for
the candidate's own atoms and for the anchors-plus-touching-SBU atoms. -/
structure LinkerEvidence where
  numAnchors : ℕ
  numSBUConnections : ℕ
  imgOrg : ℕ
  imgSbu : ℕ
deriving DecidableEq

/-- The four classification labels of the partitioner. -/
inductive LinkerClass where
  | definiteLigand
  | definiteLinker
  | resolvedLinker
  | resolvedLigand
deriving DecidableEq

/-- Classification of one candidate, following the branch structure of
lines 1080-1125: fewer than two anchors is a definite ligand; at least
two anchors and at least two SBU connections is a definite linker;
otherwise the candidate is kept as a linker exactly when
`not (len(unique(pr_image_sbu)) == 1 and len(unique(pr_image_organic)) == 1)`
(line 1099). -/
def classify_candidate (c : LinkerEvidence) : LinkerClass :=
  if 2 ≤ c.numAnchors then
    if 2 ≤ c.numSBUConnections then .definiteLinker
    else if c.imgSbu = 1 ∧ c.imgOrg = 1 then .resolvedLigand
    else .resolvedLinker
  else .definiteLigand

/-- Whether a candidate stays in `linker_list` (both ligand labels make
the loop pop the candidate and merge its atoms into
`removelist`/`SBUlist`, lines 1107-1110 and 1119-1121). -/
def keptAsLinker (c : LinkerEvidence) : Bool :=
  match classify_candidate c with
  | .definiteLinker => true
  | .resolvedLinker => true
  | _ => false

/-- One iteration of the reversed loop at index `k`: look the candidate
up in the snapshot `orig` (`reversed(list(enumerate(linker_list)))`
iterates over a snapshot) and pop index `k` from the live list when the
candidate is classified as a ligand. -/
def eraseStep (orig acc : List LinkerEvidence) (k : ℕ) : List LinkerEvidence :=
  match orig.get? k with
  | some c => if keptAsLinker c then acc else acc.eraseIdx k
  | none => acc

/-- The reversed loop of lines 1058-1125 run down from index `k - 1` to
index `0` on the live list `acc`. -/
def popAux (orig : List LinkerEvidence) : ℕ → List LinkerEvidence → List LinkerEvidence
  | 0, acc => acc
  | k + 1, acc => popAux orig k (eraseStep orig acc (k))

/-- The whole reclassification pass: iterate the reversed loop over all
indices of the candidate list. -/
def reclassification_pass (l : List LinkerEvidence) : List LinkerEvidence :=
  popAux l l.length l

/-- Concrete ambiguous candidate for the reclassification witness: two
anchors, one SBU connection, organic part spanning two periodic
images. -/
def c6_candidate : LinkerEvidence :=
  { numAnchors := 2, numSBUConnections := 1, imgOrg := 2, imgSbu := 1 }

/-! ## Descriptor assembly (`make_MOF_SBU_RACs`, lines 156-326, and
`make_MOF_linker_RACs`, lines 328-434)

The external autocorrelation kernels (`generate_atomonly_autocorrelations`,
`generate_atomonly_deltametrics`, `generate_full_complex_autocorrelations`,
`generate_multimetal_autocorrelations`, `generate_multimetal_deltametrics`,
`full_autocorrelation`) live in `molSimplify/Informatics/autocorrelation.py`,
outside the given sources; they are kept abstract as functions producing a
column-name list and a value list. -/

/-- An abstract autocorrelation kernel over inputs of type `I`: its
flattened `results_dictionary['colnames']` and
`results_dictionary['results']`. -/
structure RACKernel (I : Type) where
  colnames : I → List String
  results : I → List ℚ

/-- Tag a column-name list with its feature type. -/
def featureTag (ft : String) (cn : List String) : List String :=
  cn.map (fun s => ft ++ "-" ++ s)

/-- Modelled from the spec: `append_descriptors`
(`molSimplify/Informatics/RACassemble.py`, code of this repository not
under `src/`) appends the kernel's column names, tagged with the feature
type, to the running name list and the kernel's values to the running
value list, keeping the two sequences parallel ("vectors for all
properties and all depths are concatenated in a fixed name order"). -/
def append_descriptors (names : List String) (vals : List ℚ)
    (cn : List String) (rs : List ℚ) (ft : String) : List String × List ℚ :=
  (names ++ featureTag ft cn, vals ++ rs)

/-- Enumeration with a starting index, as Python's `enumerate`. -/
def idxFrom {α : Type} (k : ℕ) : List α → List (ℕ × α)
  | [] => []
  | x :: xs => (k, x) :: idxFrom (k + 1) xs

/-- One linker as the descriptor generator sees it: its global atom
indices (in `addAtom` order) and the element symbols of those atoms. -/
structure LinkerData where
  atoms : List ℕ
  syms : List String
deriving DecidableEq

/-- `link_list` (lines 231-234): the local indices `jj` of linker atoms
whose global index lies in `anchoring_atoms`. -/
def link_list (anchorSet : List ℕ) (lk : LinkerData) : List ℕ :=
  (idxFrom 0 lk.atoms).filterMap
    (fun p => if p.2 ∈ anchorSet then some p.1 else none)

/-- `functional_atoms` (lines 247-251): local indices that are not in
`link_list` and whose element symbol is neither carbon nor hydrogen. -/
def functional_atoms (anchorSet : List ℕ) (lk : LinkerData) : List ℕ :=
  (List.range lk.atoms.length).filter
    (fun jj =>
      !((link_list anchorSet lk).contains jj) &&
        !((["C", "H"] : List String).contains (lk.syms.getD jj "")))

/-- `gen_and_append_desc` (lines 113-148): run the atom-only
autocorrelation kernel and the atom-only deltametrics kernel on the
target list, appending both; return the deltametrics
`results_dictionary` (used afterwards for the zero-functional-group
fallback) together with the updated name and value lists. -/
def gen_and_append_desc (auto delta : RACKernel (LinkerData × List ℕ))
    (lk : LinkerData) (tl : List ℕ) (names : List String) (vals : List ℚ)
    (ft : String) : (List String × List ℚ) × List String × List ℚ :=
  let r1 := append_descriptors names vals (auto.colnames (lk, tl)) (auto.results (lk, tl)) ft
  let r2 := append_descriptors r1.1 r1.2 (delta.colnames (lk, tl)) (delta.results (lk, tl))
    ("D_" ++ ft)
  ((delta.colnames (lk, tl), delta.results (lk, tl)), r2)

/-- The per-linker `lc`/`func` descriptor row built inside the SBU loop
(lines 225-273): the lc autocorrelations on the anchor atoms, then the
functional-group autocorrelations — or, when the linker has no
functional atom, an all-zero vector `np.zeros(int(6*(depth + 1)))` under
the previous `results_dictionary['colnames']` for each of `func` and
`D_func` (lines 255-259). -/
def lcRow (auto delta : RACKernel (LinkerData × List ℕ)) (depth : ℕ)
    (anchorSet : List ℕ) (lk : LinkerData) : List String × List ℚ :=
  let ll := link_list anchorSet lk
  let g := gen_and_append_desc auto delta lk ll [] [] "lc"
  let fa := functional_atoms anchorSet lk
  if 0 < fa.length then
    (gen_and_append_desc auto delta lk fa g.2.1 g.2.2 "func").2
  else
    let z : List ℚ := List.replicate (6 * (depth + 1)) 0
    let r1 := append_descriptors g.2.1 g.2.2 g.1.1 z "func"
    append_descriptors r1.1 r1.2 g.1.1 z "D_func"

/-- The name part of one per-SBU descriptor row (lines 304-310): the
full-scope autocorrelations of the SBU's own substructure (`f`), then
the multimetal autocorrelations and deltametrics of the whole cell
`molcif` (`mc`, `D_mc`). -/
def sbuRowNames {S M : Type} (fK : RACKernel S) (mcK dmcK : RACKernel M)
    (molcif : M) (s : S) : List String :=
  featureTag "f" (fK.colnames s) ++ featureTag "mc" (mcK.colnames molcif) ++
    featureTag "D_mc" (dmcK.colnames molcif)

/-- The value part of one per-SBU descriptor row: note that the `mc` and
`D_mc` kernels are applied to `molcif`, not to the SBU. -/
def sbuRowVals {S M : Type} (fK : RACKernel S) (mcK dmcK : RACKernel M)
    (molcif : M) (s : S) : List ℚ :=
  fK.results s ++ mcK.results molcif ++ dmcK.results molcif

/-- `np.mean(np.array(rows), axis=0)`: the componentwise average of a
list of equal-length rows (empty input gives the empty vector). -/
def npMean0 (rows : List (List ℚ)) : List ℚ :=
  match rows with
  | [] => []
  | r :: _ =>
    (List.range r.length).map
      (fun j => (rows.map (fun row => row.getD j 0)).sum / (rows.length : ℚ))

/-- One step of the inner loop of lines 225-276: when the current SBU
and linker `jl.2` share an atom, append the linker's `lc`/`func` row to
`lc_descriptor_list` and (when `j == 0`) assign `lc_names`. -/
def lcStep {S : Type} (auto delta : RACKernel (LinkerData × List ℕ))
    (depth : ℕ) (anchorSet : List ℕ) (intersects : S → LinkerData → Bool)
    (s : S) (st2 : List (List ℚ) × List String) (jl : ℕ × LinkerData) :
    List (List ℚ) × List String :=
  if intersects s jl.2 then
    (st2.1 ++ [(lcRow auto delta depth anchorSet jl.2).2],
      if jl.1 = 0 then (lcRow auto delta depth anchorSet jl.2).1 else st2.2)
  else st2

/-- The inner loop of lines 225-276 for one SBU: walk `enumerate(connections_list)`
performing `lcStep` on every linker. -/
def lcInner {S : Type} (auto delta : RACKernel (LinkerData × List ℕ))
    (depth : ℕ) (anchorSet : List ℕ) (intersects : S → LinkerData → Bool)
    (s : S) (linkers : List LinkerData)
    (st : List (List ℚ) × List String) : List (List ℚ) × List String :=
  (idxFrom 0 linkers).foldl (lcStep auto delta depth anchorSet intersects s) st

/-- The doubly nested loop of `make_MOF_SBU_RACs`: for every SBU, visit
every connected linker, accumulating the lc rows and the lc names. -/
def lcState {S : Type} (auto delta : RACKernel (LinkerData × List ℕ))
    (depth : ℕ) (anchorSet : List ℕ) (intersects : S → LinkerData → Bool)
    (sbus : List S) (linkers : List LinkerData) :
    List (List ℚ) × List String :=
  sbus.foldl (fun st s => lcInner auto delta depth anchorSet intersects s linkers st)
    ([], [])

/-- `make_MOF_SBU_RACs` (lines 156-326) reduced to its returned values:
the SBU names are taken from the first SBU iteration (`if i == 0`), the
averaged vectors are `np.mean(..., axis=0)` over the per-SBU rows and
over the accumulated lc rows, and the lc names are whatever the last
`j == 0` assignment left (lines 274-275). -/
def make_MOF_SBU_RACs {S M : Type} (fK : RACKernel S) (mcK dmcK : RACKernel M)
    (auto delta : RACKernel (LinkerData × List ℕ)) (molcif : M) (depth : ℕ)
    (anchorSet : List ℕ) (intersects : S → LinkerData → Bool)
    (sbus : List S) (linkers : List LinkerData) :
    List String × List ℚ × List String × List ℚ :=
  let st := lcState auto delta depth anchorSet intersects sbus linkers
  let names : List String :=
    match sbus with
    | [] => []
    | s0 :: _ => sbuRowNames fK mcK dmcK molcif s0
  (names, npMean0 (sbus.map (sbuRowVals fK mcK dmcK molcif)), st.2, npMean0 st.1)

/-- The five linker RAC properties of line 400 paired with their column
labels of line 401. -/
def lig_property_labels : List (String × String) :=
  [("electronegativity", "chi"), ("nuclear_charge", "Z"), ("ident", "I"),
    ("topology", "T"), ("size", "S")]

/-- The flattened `colnames` built in lines 408-421: for each property
label, names `f-lig-<label>-0 .. f-lig-<label>-depth`.  (The name lists
do not depend on the linker, so the value surviving the loop equals the
value built in any iteration.) -/
def ligColnames (depth : ℕ) : List String :=
  (lig_property_labels.map
    (fun pl => (List.range (depth + 1)).map
      (fun j => "f-lig-" ++ pl.2 ++ "-" ++ toString j))).flatten

/-- The flattened `lig_full` value row of one linker (lines 408-420):
`full_autocorrelation(linker_mol, properties, depth)` for each of the
five properties.  Since the running `descriptors` list of line 362 is
never extended, the `if not list(descriptors)` test of line 409 is
always true and each property's vector is computed fresh. -/
def ligRowVals (ligK : String → LinkerData → List ℚ) (lk : LinkerData) : List ℚ :=
  (lig_property_labels.map (fun pl => ligK pl.1 lk)).flatten

/-- `make_MOF_linker_RACs` (lines 328-434) reduced to its returned
values: the column names and the componentwise average of the per-linker
rows. -/
def make_MOF_linker_RACs (ligK : String → LinkerData → List ℚ) (depth : ℕ)
    (linkers : List LinkerData) : List String × List ℚ :=
  (ligColnames depth, npMean0 (linkers.map (ligRowVals ligK)))

/-- The full feature vector assembled at lines 1175-1178:
`full_names = descriptor_names + lig_descriptor_names + lc_descriptor_names`
and the matching concatenation of the three averaged value vectors. -/
def full_feature_vector {S M : Type} (fK : RACKernel S) (mcK dmcK : RACKernel M)
    (auto delta : RACKernel (LinkerData × List ℕ))
    (ligK : String → LinkerData → List ℚ) (molcif : M) (depth : ℕ)
    (anchorSet : List ℕ) (intersects : S → LinkerData → Bool)
    (sbus : List S) (linkers : List LinkerData) : List String × List ℚ :=
  let r := make_MOF_SBU_RACs fK mcK dmcK auto delta molcif depth anchorSet intersects
    sbus linkers
  let lig := make_MOF_linker_RACs ligK depth linkers
  (r.1 ++ lig.1 ++ r.2.2.1, r.2.1 ++ lig.2 ++ r.2.2.2)

/-! ## Append-only descriptor tables
(`load_sbu_lc_descriptors`, lines 84-111; the `DataFrame.append` /
`to_csv` calls at lines 272-278, 319-324 and 425-432)

A csv file is modelled by its list of data rows; `pd.read_csv` on a
file with rows gives those rows back, an empty file gives the empty
`DataFrame`, and `to_csv` replaces the file's content with the frame's
rows. -/

/-- The `DataFrame.append(desc_dict, ignore_index=True)` loop: each new
row is appended at the end of the frame. -/
def append_rows {R : Type} (df : List R) (rows : List R) : List R :=
  rows.foldl (fun d r => d ++ [r]) df

/-- `sbu_descriptors.csv` over one run: load the existing rows, append
one row per SBU, write the frame back once after the loop (line 324). -/
def sbu_table_run {R : Type} (file : List R) (newRows : List R) : List R :=
  append_rows file newRows

/-- `linker_descriptors.csv` over one run: load the existing rows,
append one row per linker, write the frame back once (line 432). -/
def linker_table_run {R : Type} (file : List R) (newRows : List R) : List R :=
  append_rows file newRows

/-- `lc_descriptors.csv` over one run: the frame is loaded once before
the SBU loop and rewritten to the file at the end of every SBU iteration
(line 278); each iteration contributes one group of lc rows, and the
last write (or the untouched file, if the loop never runs) is the final
content. -/
def lc_table_run {R : Type} (file : List R) (rowGroups : List (List R)) : List R :=
  rowGroups.foldl (fun df g => append_rows df g) file

/-! ## Concrete witness data -/

/-- Input for the C2 witness: an ordinary run with an output path. -/
def c2_witness_input : MOFInput :=
  { pathProvided := true, numAtoms := 10, maxNumAtoms := 2000,
    graphProvided := false, atomicOverlap := false, hasMetal := true,
    solventComponentExists := false, numLinkers := 2,
    featNames := ["f-chi-0", "f-chi-1"], featVals := [3, 4],
    getBondInfo := false, surroundedSbuGen := false, detectRod := false,
    bondInfoRaises := false, surroundedRaises := false, rodRaises := false }

/-- Input for the C3 witness: the wrapped surrounded-SBU diagnostic is
enabled and raises, while the unwrapped diagnostics are disabled. -/
def c3_witness_input : MOFInput :=
  { pathProvided := true, numAtoms := 10, maxNumAtoms := 2000,
    graphProvided := false, atomicOverlap := false, hasMetal := true,
    solventComponentExists := false, numLinkers := 2,
    featNames := ["f-chi-0", "f-chi-1"], featVals := [3, 4],
    getBondInfo := false, surroundedSbuGen := true, detectRod := false,
    bondInfoRaises := false, surroundedRaises := true, rodRaises := false }

/-- A concrete atom-only autocorrelation kernel of the shape the real
kernels have at depth 0 (six properties, one depth): six names, six
values. -/
def w_auto : RACKernel (LinkerData × List ℕ) :=
  { colnames := fun _ => ["chi-0", "Z-0", "I-0", "T-0", "S-0", "alpha-0"],
    results := fun _ => [1, 1, 1, 1, 1, 1] }

/-- A concrete atom-only deltametrics kernel at depth 0. -/
def w_delta : RACKernel (LinkerData × List ℕ) :=
  { colnames := fun _ => ["chi-0", "Z-0", "I-0", "T-0", "S-0", "alpha-0"],
    results := fun _ => [2, 2, 2, 2, 2, 2] }

/-- A concrete full-scope SBU kernel (one column). -/
def w_fK : RACKernel ℕ :=
  { colnames := fun _ => ["chi-0"], results := fun _ => [3] }

/-- A concrete multimetal autocorrelation kernel (one column). -/
def w_mcK : RACKernel Unit :=
  { colnames := fun _ => ["chi-0"], results := fun _ => [4] }

/-- A concrete multimetal deltametrics kernel (one column). -/
def w_dmcK : RACKernel Unit :=
  { colnames := fun _ => ["chi-0"], results := fun _ => [5] }

/-- A concrete linker full-autocorrelation kernel at depth 0. -/
def w_ligK : String → LinkerData → List ℚ := fun _ _ => [6]

/-- A two-atom linker with no functional atom: atom 7 is an anchoring
carbon, atom 8 a hydrogen. -/
def c7_linker : LinkerData := { atoms := [7, 8], syms := ["C", "H"] }

/-- The anchoring-atom set for the witness runs. -/
def w_anchor_set : List ℕ := [7]

/-! ## Theorems -/

/-- C1: the claim says that with fewer than two linkers identified after
partitioning (zero or exactly one linker subgraph) the pipeline returns a
sentinel pair, logs a distinct failure message, and does not run full
descriptor generation.  The code violates this for exactly one linker:
the first branch of lines 1173-1190 tests `len(linker_subgraphlist) >= 1`,
so the `elif len(linker_subgraphlist) == 1` sentinel branch is dead code
and a single-linker structure is fully featurized with no failure log —
contradicting the code's own `elif` comment and the failure message
"Only zero or one total linkers identified." of lines 1191-1194.  This
theorem evaluates the embedded pipeline at such an input. -/
theorem c1_single_linker_fully_featurized :
    c1_input.numLinkers = 1 ∧
    get_MOF_descriptors c1_input =
      { result := .ok { names := [PyVal.s "f-chi-0", PyVal.s "f-chi-1"],
                        vals := [PyVal.q 3, PyVal.q 4] },
        log := [] } := by
  decide

/-- C2 counterexample: calling `get_MOF_descriptors` without an output
path makes the `raise ValueError` of lines 893-895 escape to the caller,
so it is not true that no exception ever escapes. -/
theorem c2_missing_path_raises :
    c2_input.pathProvided = false ∧
    (get_MOF_descriptors c2_input).result = .error .valueError := by
  decide

/-- C2 amended: when an output path is supplied — and the optional
unwrapped diagnostics (bond-length statistics, 1D-rod detection) do not
raise — no exception escapes `get_MOF_descriptors`: every terminal
condition is handled locally and the caller receives a well-formed
(possibly degenerate sentinel) pair. -/
theorem c2_no_exception_with_path (inp : MOFInput)
    (hp : inp.pathProvided = true)
    (hb : inp.getBondInfo = true → inp.bondInfoRaises = false)
    (hr : inp.detectRod = true → inp.rodRaises = false) :
    ∃ p : RetPair, (get_MOF_descriptors inp).result = .ok p := by
  unfold get_MOF_descriptors
  rw [hp]
  cases hv : validator_failure inp with
  | some msg => exact ⟨sentinel_pair, by simp⟩
  | none =>
    by_cases h1 : inp.getBondInfo = true ∧ inp.bondInfoRaises = true
    · exact absurd (hb h1.1) (by simp [h1.2])
    · by_cases h2 : inp.detectRod = true ∧ inp.rodRaises = true
      · exact absurd (hr h2.1) (by simp [h2.2])
      · exact ⟨featurization_dispatch inp.numLinkers inp.featNames inp.featVals,
          by simp [h1, h2]⟩

/-- C2 witness: the amended theorem applied at a concrete input. -/
theorem c2_no_exception_with_path_witness :
    ∃ p : RetPair, (get_MOF_descriptors c2_witness_input).result = .ok p :=
  c2_no_exception_with_path c2_witness_input (by decide) (by decide) (by decide)

/-- C3 counterexample: `bond_information_write` is invoked at line 1199
with no `try`, so when it raises on a run that passed validation the
exception propagates to the caller — refuting the claim that each of the
three diagnostics is wrapped. -/
theorem c3_bond_diagnostic_exception_escapes :
    passes_validation c3_input ∧ c3_input.getBondInfo = true ∧
    (get_MOF_descriptors c3_input).result = .error .exn := by
  refine ⟨⟨rfl, by decide⟩, rfl, by decide⟩

/-- C3 amended: only the surrounded-SBU export diagnostic is wrapped
(lines 1202-1207): its failure is caught, logged, and leaves the
returned result unchanged; the bond-length-statistics and 1D-rod
diagnostics are invoked unwrapped, so the amended guarantee holds only
when they do not raise. -/
theorem c3_only_surrounded_sbu_diagnostic_wrapped (inp : MOFInput)
    (hp : inp.pathProvided = true)
    (hb : inp.getBondInfo = true → inp.bondInfoRaises = false)
    (hr : inp.detectRod = true → inp.rodRaises = false) :
    (get_MOF_descriptors inp).result =
      (get_MOF_descriptors { inp with surroundedRaises := false }).result ∧
    (passes_validation inp → inp.surroundedSbuGen = true →
      inp.surroundedRaises = true →
      surrounded_fail_msg ∈ (get_MOF_descriptors inp).log) := by
  obtain ⟨p, na, ma, gp, ov, hm, sc, nl, fn, fv, gb, ss, dr, br, sr, rr⟩ := inp
  simp only at hp hb hr
  subst hp
  constructor
  · unfold get_MOF_descriptors
    have hvf : validator_failure ⟨true, na, ma, gp, ov, hm, sc, nl, fn, fv, gb, ss, dr,
          br, false, rr⟩ =
        validator_failure ⟨true, na, ma, gp, ov, hm, sc, nl, fn, fv, gb, ss, dr,
          br, sr, rr⟩ := rfl
    rw [hvf]
    cases hv : validator_failure ⟨true, na, ma, gp, ov, hm, sc, nl, fn, fv, gb, ss, dr,
        br, sr, rr⟩ with
    | some msg => rfl
    | none =>
      by_cases h1 : gb = true ∧ br = true
      · simp [h1]
      · by_cases h2 : dr = true ∧ rr = true
        · simp [h1, h2]
        · simp [h1, h2]
  · intro hpass hs hraises
    simp only at hs hraises
    subst hs; subst hraises
    unfold get_MOF_descriptors
    rw [hpass.2]
    by_cases h1 : gb = true ∧ br = true
    · exact absurd (hb h1.1) (by simp [h1.2])
    · by_cases h2 : dr = true ∧ rr = true
      · exact absurd (hr h2.1) (by simp [h2.2])
      · simp [h1, h2]

/-- C3 witness: the amended theorem applied at a concrete input on
which the surrounded-SBU diagnostic raises. -/
theorem c3_only_surrounded_sbu_diagnostic_wrapped_witness :
    (get_MOF_descriptors c3_witness_input).result =
      (get_MOF_descriptors { c3_witness_input with surroundedRaises := false }).result ∧
    (passes_validation c3_witness_input → c3_witness_input.surroundedSbuGen = true →
      c3_witness_input.surroundedRaises = true →
      surrounded_fail_msg ∈ (get_MOF_descriptors c3_witness_input).log) :=
  c3_only_surrounded_sbu_diagnostic_wrapped c3_witness_input (by decide) (by decide)
    (by decide)

/-- C5 counterexample: on the four-atom cell `c5_graph` (metal 0, oxygen
1 bonded to metal, carbon and hydrogen, hydrogen 3 bonded to the
oxygen), the code's removal set is `{0, 3}` — the loop of lines
1014-1017 collects hydrogens bonded to any atom of `SBUlist` (the metals
and their first coordination shell) — while the set described by the
claim ("hydrogens bonded to atoms already in the removal set") is
`{0}`. -/
theorem c5_seed_removal_set_claim_false :
    c5_graph.removelist = ({0, 3} : Finset ℕ) ∧
    c5_graph.claimedSeedSet = ({0} : Finset ℕ) ∧
    c5_graph.removelist ≠ c5_graph.claimedSeedSet := by
  refine ⟨by decide, by decide, by decide⟩

/-- C5 amended: for every cell graph, the seed removal set computed at
lines 999-1017 equals exactly: all metal atoms, plus
first-coordination-shell atoms (metals or atoms bonded to a metal) whose
every bonded neighbour is a metal or hydrogen, plus hydrogens bonded to
any first-coordination-shell atom — and contains no other atoms. -/
theorem c5_seed_removal_set_amended (g : CellGraph) :
    g.removelist = g.amendedSeedSet := by
  ext a
  simp only [CellGraph.removelist, CellGraph.removelist_step2, CellGraph.SBUlist0,
    CellGraph.amendedSeedSet, CellGraph.metals, CellGraph.bonded, CellGraph.atomsF,
    Finset.mem_union, Finset.mem_filter, Finset.mem_biUnion, Finset.mem_range]
  constructor
  · rintro ((h | ⟨hshell, hall⟩) | ⟨⟨x, hx, hrange, hadj⟩, hH⟩)
    · exact Or.inl (Or.inl h)
    · rcases hshell with hmet | ⟨m, hm, hrangea, hadja⟩
      · exact Or.inl (Or.inr ⟨hmet.1, Or.inl hmet.2, hall⟩)
      · exact Or.inl (Or.inr ⟨hrangea, Or.inr ⟨m, hm, hadja⟩, hall⟩)
    · refine Or.inr ⟨hrange, hH, x, ?_, ?_, hadj⟩
      · rcases hx with hxm | ⟨m, hm, hxr, hxa⟩
        · exact hxm.1
        · exact hxr
      · rcases hx with hxm | ⟨m, hm, hxr, hxa⟩
        · exact Or.inl hxm.2
        · exact Or.inr ⟨m, hm, hxa⟩
  · rintro ((h | ⟨hrange, hcond, hall⟩) | ⟨hrange, hH, x, hxr, hxcond, hadj⟩)
    · exact Or.inl (Or.inl h)
    · rcases hcond with hmet | ⟨m, hm, hadja⟩
      · exact Or.inl (Or.inr ⟨Or.inl ⟨hrange, hmet⟩, hall⟩)
      · exact Or.inl (Or.inr ⟨Or.inr ⟨m, hm, hrange, hadja⟩, hall⟩)
    · refine Or.inr ⟨⟨x, ?_, hrange, hadj⟩, hH⟩
      rcases hxcond with hxm | ⟨m, hm, hxa⟩
      · exact Or.inl ⟨hxr, hxm⟩
      · exact Or.inr ⟨m, hm, hxr, hxa⟩

/-- Erasing at the index right after a prefix removes the element that
follows the prefix. -/
theorem eraseIdx_at_append {α : Type} (a : List α) (c : α) (tl : List α) :
    (a ++ c :: tl).eraseIdx a.length = a ++ tl := by
  induction a with
  | nil => rfl
  | cons x xs ih => simpa using ih

/-- Variant of `eraseIdx_at_append` with the index given as a separate
variable. -/
theorem eraseIdx_at_append_of_length {α : Type} (a : List α) (c : α) (tl : List α)
    (k : ℕ) (h : a.length = k) : (a ++ c :: tl).eraseIdx k = a ++ tl := by
  subst h; exact eraseIdx_at_append a c tl

/-- Running the reversed loop over the first `k` indices, on a live list
that agrees with the snapshot on those indices, filters the processed
region and leaves the already-processed tail alone. -/
theorem popAux_take (orig : List LinkerEvidence) :
    ∀ (k : ℕ) (tl : List LinkerEvidence), k ≤ orig.length →
      popAux orig k (orig.take k ++ tl) = (orig.take k).filter keptAsLinker ++ tl := by
  intro k
  induction k with
  | zero => intro tl _; simp [popAux]
  | succ k ih =>
    intro tl hk
    have hklt : k < orig.length := Nat.lt_of_succ_le hk
    have hget : orig.get? k = some (orig.get ⟨k, hklt⟩) := List.get?_eq_get hklt
    have htake : orig.take (k + 1) = orig.take k ++ [orig.get ⟨k, hklt⟩] := by
      rw [List.take_succ]
      simp [List.getElem?_eq_getElem hklt, List.get_eq_getElem]
    have hlen : (orig.take k).length = k := by
      rw [List.length_take]; exact Nat.min_eq_left (Nat.le_of_lt hklt)
    unfold popAux eraseStep
    rw [hget, htake]
    dsimp only
    by_cases hkept : keptAsLinker (orig.get ⟨k, hklt⟩)
    · rw [if_pos hkept]
      have hrec := ih (orig.get ⟨k, hklt⟩ :: tl) (Nat.le_of_lt hklt)
      rw [List.append_assoc, List.singleton_append] at *
      rw [hrec, List.filter_append]
      have hkept2 : keptAsLinker (orig.get ⟨k, hklt⟩) = true := hkept
      simp only [List.get_eq_getElem] at hkept2
      simp [hkept2]
    · rw [if_neg hkept]
      rw [List.append_assoc, List.singleton_append,
        eraseIdx_at_append_of_length (List.take k orig) _ tl k hlen]
      rw [ih tl (Nat.le_of_lt hklt), List.filter_append]
      have hkept2 : ¬keptAsLinker (orig.get ⟨k, hklt⟩) = true := hkept
      simp only [List.get_eq_getElem] at hkept2
      simp [hkept2]

/-- The reversed pop loop of lines 1058-1125 is extensionally a filter
of the candidate list by the kept-as-linker predicate. -/
theorem reclassification_pass_eq_filter (l : List LinkerEvidence) :
    reclassification_pass l = l.filter keptAsLinker := by
  have h := popAux_take l l.length [] le_rfl
  simpa [reclassification_pass, List.take_length] using h

/-- C6: a candidate with at least two anchors but exactly one SBU
connection survives the reclassification pass (stays in `linker_list`)
exactly when its own atoms or the touching-SBU atoms span more than one
distinct periodic image; otherwise it is classified resolved-ligand (and
its atoms are merged back into the removal/SBU sets by lines
1107-1110).  `ligand_detect` reports at least one periodic image for a
non-empty atom set, whence the two `1 ≤` hypotheses. -/
theorem c6_ambiguous_candidate_kept_iff_multi_image
    (l : List LinkerEvidence) (c : LinkerEvidence) (hmem : c ∈ l)
    (ha : 2 ≤ c.numAnchors) (hs : c.numSBUConnections = 1)
    (ho : 1 ≤ c.imgOrg) (hb : 1 ≤ c.imgSbu) :
    (c ∈ reclassification_pass l ↔ (1 < c.imgOrg ∨ 1 < c.imgSbu)) ∧
    ((1 < c.imgOrg ∨ 1 < c.imgSbu) → classify_candidate c = .resolvedLinker) ∧
    (¬(1 < c.imgOrg ∨ 1 < c.imgSbu) → classify_candidate c = .resolvedLigand) := by
  have hs2 : ¬(2 ≤ c.numSBUConnections) := by omega
  by_cases himg : c.imgSbu = 1 ∧ c.imgOrg = 1
  · have hclass : classify_candidate c = .resolvedLigand := by
      unfold classify_candidate
      rw [if_pos ha, if_neg hs2, if_pos himg]
    have hnot : ¬(1 < c.imgOrg ∨ 1 < c.imgSbu) := by omega
    refine ⟨?_, fun h => absurd h hnot, fun _ => hclass⟩
    rw [reclassification_pass_eq_filter]
    simp only [List.mem_filter, keptAsLinker, hclass]
    simp [hnot]
  · have hclass : classify_candidate c = .resolvedLinker := by
      unfold classify_candidate
      rw [if_pos ha, if_neg hs2, if_neg himg]
    have hyes : 1 < c.imgOrg ∨ 1 < c.imgSbu := by omega
    refine ⟨?_, fun _ => hclass, fun h => absurd hyes h⟩
    rw [reclassification_pass_eq_filter]
    simp only [List.mem_filter, keptAsLinker, hclass]
    simp [hyes, hmem]

/-- C6 witness: the theorem applied to a concrete singleton candidate
list with an organic part spanning two periodic images. -/
theorem c6_ambiguous_candidate_kept_iff_multi_image_witness :
    (c6_candidate ∈ reclassification_pass [c6_candidate] ↔
      (1 < c6_candidate.imgOrg ∨ 1 < c6_candidate.imgSbu)) ∧
    ((1 < c6_candidate.imgOrg ∨ 1 < c6_candidate.imgSbu) →
      classify_candidate c6_candidate = .resolvedLinker) ∧
    (¬(1 < c6_candidate.imgOrg ∨ 1 < c6_candidate.imgSbu) →
      classify_candidate c6_candidate = .resolvedLigand) :=
  c6_ambiguous_candidate_kept_iff_multi_image [c6_candidate] c6_candidate (by decide)
    (by decide) (by decide) (by decide) (by decide)

/-- C7: when a linker substructure has no functional atom, the `func`
and `D_func` value groups appended to its descriptor row are each the
all-zero vector of length exactly `6*(depth+1)` (lines 255-259) — never
a shorter or absent vector. -/
theorem c7_zero_functional_atoms_zero_vectors
    (auto delta : RACKernel (LinkerData × List ℕ)) (depth : ℕ)
    (anchorSet : List ℕ) (lk : LinkerData)
    (h : functional_atoms anchorSet lk = []) :
    (lcRow auto delta depth anchorSet lk).2 =
      auto.results (lk, link_list anchorSet lk) ++
        delta.results (lk, link_list anchorSet lk) ++
        List.replicate (6 * (depth + 1)) (0 : ℚ) ++
        List.replicate (6 * (depth + 1)) (0 : ℚ) := by
  unfold lcRow gen_and_append_desc append_descriptors
  rw [h]
  simp [List.append_assoc]

/-- C7 witness: the theorem applied to a concrete carbon-hydrogen linker
with a single anchoring atom and no functional atom, at depth 0. -/
theorem c7_zero_functional_atoms_zero_vectors_witness :
    functional_atoms w_anchor_set c7_linker = [] ∧
    (lcRow w_auto w_delta 0 w_anchor_set c7_linker).2 =
      w_auto.results (c7_linker, link_list w_anchor_set c7_linker) ++
        w_delta.results (c7_linker, link_list w_anchor_set c7_linker) ++
        List.replicate (6 * (0 + 1)) (0 : ℚ) ++
        List.replicate (6 * (0 + 1)) (0 : ℚ) :=
  ⟨by decide,
    c7_zero_functional_atoms_zero_vectors w_auto w_delta 0 w_anchor_set c7_linker
      (by decide)⟩

/-- C8: the componentwise averaging of the per-substructure descriptor
rows (`np.mean(np.array(descriptor_list), axis=0)`, lines 325 and 433)
is order-independent: permuting the rows yields the same averaged
vector, as an equation over exact numbers. -/
theorem c8_averaging_permutation_invariant (rows rows2 : List (List ℚ)) (m : ℕ)
    (hperm : rows.Perm rows2) (hne : rows ≠ [])
    (hlen : ∀ r ∈ rows, r.length = m) :
    npMean0 rows = npMean0 rows2 := by
  obtain ⟨a, t, rfl⟩ := List.exists_cons_of_ne_nil hne
  have hne2 : rows2 ≠ [] := by
    intro hnil
    subst hnil
    have := hperm.length_eq
    simp at this
  obtain ⟨b, t2, rfl⟩ := List.exists_cons_of_ne_nil hne2
  have ha : a.length = m := hlen a (List.mem_cons_self a t)
  have hb : b.length = m := hlen b (hperm.mem_iff.2 (List.mem_cons_self b t2))
  show (List.range a.length).map
      (fun j => ((a :: t).map (fun row => row.getD j 0)).sum / ((a :: t).length : ℚ)) =
    (List.range b.length).map
      (fun j => ((b :: t2).map (fun row => row.getD j 0)).sum / ((b :: t2).length : ℚ))
  rw [ha, hb]
  have hfun : (fun j => ((a :: t).map (fun row => row.getD j 0)).sum / ((a :: t).length : ℚ)) =
      (fun j => ((b :: t2).map (fun row => row.getD j 0)).sum / ((b :: t2).length : ℚ)) := by
    funext j
    rw [List.Perm.sum_eq (hperm.map (fun row => row.getD j 0)), hperm.length_eq]
  rw [hfun]

/-- C8 witness: the theorem applied to two concrete two-row lists that
are permutations of each other. -/
theorem c8_averaging_permutation_invariant_witness :
    npMean0 [[(1 : ℚ), 2], [3, 4]] = npMean0 [[3, 4], [1, 2]] :=
  c8_averaging_permutation_invariant [[(1 : ℚ), 2], [3, 4]] [[3, 4], [1, 2]] 2
    (List.Perm.swap [3, 4] [1, 2] []) (by decide) (by decide)

/-- Appending rows one at a time to a data frame appends them in
order. -/
theorem append_rows_eq {R : Type} (df rows : List R) :
    append_rows df rows = df ++ rows := by
  induction rows generalizing df with
  | nil => simp [append_rows]
  | cons r rs ih =>
    have h1 : append_rows df (r :: rs) = append_rows (df ++ [r]) rs := rfl
    rw [h1, ih, List.append_assoc, List.singleton_append]

/-- The repeatedly rewritten lc table ends as the loaded rows followed
by all generated row groups. -/
theorem lc_table_run_eq {R : Type} (file : List R) (groups : List (List R)) :
    lc_table_run file groups = file ++ groups.flatten := by
  induction groups generalizing file with
  | nil => simp [lc_table_run]
  | cons g gs ih =>
    have h1 : lc_table_run file (g :: gs) = lc_table_run (append_rows file g) gs := rfl
    rw [h1, ih, append_rows_eq]
    simp

/-- C9: a successful run leaves each of the three descriptor tables
equal to its previous rows followed by the newly generated rows — rows
written by earlier runs are never lost or overwritten, so repeated runs
accumulate rows. -/
theorem c9_descriptor_tables_append_only {R : Type}
    (sbuFile linkerFile lcFile : List R) (sbuRows linkerRows : List R)
    (lcGroups : List (List R)) :
    sbu_table_run sbuFile sbuRows = sbuFile ++ sbuRows ∧
    linker_table_run linkerFile linkerRows = linkerFile ++ linkerRows ∧
    lc_table_run lcFile lcGroups = lcFile ++ lcGroups.flatten ∧
    (∀ r ∈ sbuFile, r ∈ sbu_table_run sbuFile sbuRows) ∧
    (∀ r ∈ linkerFile, r ∈ linker_table_run linkerFile linkerRows) ∧
    (∀ r ∈ lcFile, r ∈ lc_table_run lcFile lcGroups) := by
  have hsbu : sbu_table_run sbuFile sbuRows = sbuFile ++ sbuRows :=
    append_rows_eq sbuFile sbuRows
  have hlinker : linker_table_run linkerFile linkerRows = linkerFile ++ linkerRows :=
    append_rows_eq linkerFile linkerRows
  have hlc := lc_table_run_eq lcFile lcGroups
  refine ⟨hsbu, hlinker, hlc, ?_, ?_, ?_⟩
  · intro r hr; rw [hsbu]; exact List.mem_append_left _ hr
  · intro r hr; rw [hlinker]; exact List.mem_append_left _ hr
  · intro r hr; rw [hlc]; exact List.mem_append_left _ hr

/-- C10: in every per-SBU descriptor row, the `mc` and `D_mc` components
are the multimetal kernels applied to the whole cell `molcif`
(lines 307-310), not to the SBU's own substructure, so after the
SBU-specific `f` block every row carries the same `mc`/`D_mc` values —
identical across all SBUs of the structure. -/
theorem c10_mc_descriptors_identical_across_sbus {S M : Type}
    (fK : RACKernel S) (mcK dmcK : RACKernel M) (molcif : M) (s t : S) :
    (sbuRowVals fK mcK dmcK molcif s).drop (fK.results s).length =
      mcK.results molcif ++ dmcK.results molcif ∧
    (sbuRowVals fK mcK dmcK molcif s).drop (fK.results s).length =
      (sbuRowVals fK mcK dmcK molcif t).drop (fK.results t).length := by
  have hdrop : ∀ u : S, (sbuRowVals fK mcK dmcK molcif u).drop (fK.results u).length =
      mcK.results molcif ++ dmcK.results molcif := by
    intro u
    unfold sbuRowVals
    rw [List.append_assoc, List.drop_left]
  exact ⟨hdrop s, by rw [hdrop s, hdrop t]⟩

/-- Tagging column names with a feature type preserves their count. -/
theorem featureTag_length (ft : String) (cn : List String) :
    (featureTag ft cn).length = cn.length := by
  simp [featureTag]

/-- The componentwise average of a non-empty row list has the length of
its first row. -/
theorem npMean0_length_cons (r : List ℚ) (rest : List (List ℚ)) :
    (npMean0 (r :: rest)).length = r.length := by
  simp [npMean0]

/-- Every `lc`/`func` value row has length `24*(depth+1)` when the two
atom-only kernels produce `6*(depth+1)` values each, whichever branch of
the functional-atom test is taken. -/
theorem lcRow_vals_length (auto delta : RACKernel (LinkerData × List ℕ))
    (depth : ℕ) (anchorSet : List ℕ) (lk : LinkerData)
    (hautoR : ∀ x, (auto.results x).length = 6 * (depth + 1))
    (hdeltaR : ∀ x, (delta.results x).length = 6 * (depth + 1)) :
    (lcRow auto delta depth anchorSet lk).2.length = 24 * (depth + 1) := by
  unfold lcRow gen_and_append_desc append_descriptors
  by_cases hfa : 0 < (functional_atoms anchorSet lk).length
  · simp [hfa, hautoR, hdeltaR]
    omega
  · simp [hfa, hautoR, hdeltaR]
    omega

/-- Every `lc`/`func` name row has length `24*(depth+1)` when the two
atom-only kernels produce `6*(depth+1)` column names each. -/
theorem lcRow_names_length (auto delta : RACKernel (LinkerData × List ℕ))
    (depth : ℕ) (anchorSet : List ℕ) (lk : LinkerData)
    (hautoN : ∀ x, (auto.colnames x).length = 6 * (depth + 1))
    (hdeltaN : ∀ x, (delta.colnames x).length = 6 * (depth + 1)) :
    (lcRow auto delta depth anchorSet lk).1.length = 24 * (depth + 1) := by
  unfold lcRow gen_and_append_desc append_descriptors
  by_cases hfa : 0 < (functional_atoms anchorSet lk).length
  · simp [hfa, featureTag_length, hautoN, hdeltaN]
    omega
  · simp [hfa, featureTag_length, hautoN, hdeltaN]
    omega

/-- The inner fold appends the rows of the intersecting linkers, in
order, regardless of the enumeration start index. -/
theorem lcFold_rows {S : Type} (auto delta : RACKernel (LinkerData × List ℕ))
    (depth : ℕ) (anchorSet : List ℕ) (intersects : S → LinkerData → Bool) (s : S) :
    ∀ (ls : List LinkerData) (k : ℕ) (st : List (List ℚ) × List String),
      ((idxFrom k ls).foldl (lcStep auto delta depth anchorSet intersects s) st).1 =
        st.1 ++ (ls.filter (intersects s)).map
          (fun l => (lcRow auto delta depth anchorSet l).2) := by
  intro ls
  induction ls with
  | nil => intro k st; simp [idxFrom]
  | cons x xs ih =>
    intro k st
    rw [show idxFrom k (x :: xs) = (k, x) :: idxFrom (k + 1) xs from rfl, List.foldl_cons,
      ih (k + 1)]
    unfold lcStep
    by_cases hx : intersects s x
    · simp [hx, List.filter_cons]
    · simp [hx, List.filter_cons]

/-- From enumeration index 1 onwards the inner fold never reassigns the
lc names (`if j == 0` fails). -/
theorem lcFold_names_of_pos {S : Type} (auto delta : RACKernel (LinkerData × List ℕ))
    (depth : ℕ) (anchorSet : List ℕ) (intersects : S → LinkerData → Bool) (s : S) :
    ∀ (ls : List LinkerData) (k : ℕ) (st : List (List ℚ) × List String), 1 ≤ k →
      ((idxFrom k ls).foldl (lcStep auto delta depth anchorSet intersects s) st).2 =
        st.2 := by
  intro ls
  induction ls with
  | nil => intro k st _; simp [idxFrom]
  | cons x xs ih =>
    intro k st hk
    rw [show idxFrom k (x :: xs) = (k, x) :: idxFrom (k + 1) xs from rfl, List.foldl_cons,
      ih (k + 1) _ (by omega)]
    unfold lcStep
    by_cases hx : intersects s x
    · simp [hx, show ¬(k = 0) from by omega]
    · simp [hx]

/-- One pass of the inner loop assigns the lc names exactly when the SBU
shares an atom with linker 0. -/
theorem lcInner_names {S : Type} (auto delta : RACKernel (LinkerData × List ℕ))
    (depth : ℕ) (anchorSet : List ℕ) (intersects : S → LinkerData → Bool) (s : S)
    (l0 : LinkerData) (rest : List LinkerData) (st : List (List ℚ) × List String) :
    (lcInner auto delta depth anchorSet intersects s (l0 :: rest) st).2 =
      if intersects s l0 then (lcRow auto delta depth anchorSet l0).1 else st.2 := by
  unfold lcInner
  rw [show idxFrom 0 (l0 :: rest) = (0, l0) :: idxFrom 1 rest from rfl, List.foldl_cons,
    lcFold_names_of_pos auto delta depth anchorSet intersects s rest 1 _ le_rfl]
  unfold lcStep
  by_cases hx : intersects s l0
  · simp [hx]
  · simp [hx]

/-- Over the whole SBU loop the lc names end up being linker 0's row
names as soon as at least one SBU shares an atom with linker 0
(every assignment writes that same name list). -/
theorem lcState_names_aux {S : Type} (auto delta : RACKernel (LinkerData × List ℕ))
    (depth : ℕ) (anchorSet : List ℕ) (intersects : S → LinkerData → Bool)
    (l0 : LinkerData) (rest : List LinkerData) :
    ∀ (sbus : List S) (st : List (List ℚ) × List String),
      ((sbus.foldl
        (fun st2 s => lcInner auto delta depth anchorSet intersects s (l0 :: rest) st2)
        st)).2 =
      if (sbus.any fun s => intersects s l0) = true
        then (lcRow auto delta depth anchorSet l0).1 else st.2 := by
  intro sbus
  induction sbus with
  | nil => intro st; simp
  | cons s ss ih =>
    intro st
    rw [List.foldl_cons, ih, lcInner_names]
    by_cases hs : intersects s l0 <;>
      by_cases hss : (ss.any fun u => intersects u l0) = true <;>
        simp [hs, hss]

/-- The rows accumulated by the doubly nested lc loop: for each SBU in
order, the rows of the linkers intersecting it. -/
theorem lcState_rows {S : Type} (auto delta : RACKernel (LinkerData × List ℕ))
    (depth : ℕ) (anchorSet : List ℕ) (intersects : S → LinkerData → Bool)
    (linkers : List LinkerData) :
    ∀ (sbus : List S) (st : List (List ℚ) × List String),
      ((sbus.foldl
        (fun st2 s => lcInner auto delta depth anchorSet intersects s linkers st2)
        st)).1 =
      st.1 ++ (sbus.map (fun s => (linkers.filter (intersects s)).map
        (fun l => (lcRow auto delta depth anchorSet l).2))).flatten := by
  intro sbus
  induction sbus with
  | nil => intro st; simp
  | cons s ss ih =>
    intro st
    rw [List.foldl_cons, ih]
    unfold lcInner
    rw [lcFold_rows auto delta depth anchorSet intersects s linkers 0 st]
    simp [List.append_assoc]

/-- Every row accumulated by the lc loop has length `24*(depth+1)`. -/
theorem lcState_rows_length {S : Type} (auto delta : RACKernel (LinkerData × List ℕ))
    (depth : ℕ) (anchorSet : List ℕ) (intersects : S → LinkerData → Bool)
    (sbus : List S) (linkers : List LinkerData)
    (hautoR : ∀ x, (auto.results x).length = 6 * (depth + 1))
    (hdeltaR : ∀ x, (delta.results x).length = 6 * (depth + 1)) :
    ∀ r ∈ (lcState auto delta depth anchorSet intersects sbus linkers).1,
      r.length = 24 * (depth + 1) := by
  intro r hr
  unfold lcState at hr
  rw [lcState_rows auto delta depth anchorSet intersects linkers sbus ([], [])] at hr
  simp only [List.nil_append, List.mem_flatten, List.mem_map] at hr
  obtain ⟨g, ⟨s, _, rfl⟩, hg⟩ := hr
  obtain ⟨l, _, rfl⟩ := List.mem_map.1 hg
  exact lcRow_vals_length auto delta depth anchorSet l hautoR hdeltaR

/-- When some SBU shares an atom with linker 0 the lc loop accumulates
at least one row. -/
theorem lcState_rows_ne_nil {S : Type} (auto delta : RACKernel (LinkerData × List ℕ))
    (depth : ℕ) (anchorSet : List ℕ) (intersects : S → LinkerData → Bool)
    (sbus : List S) (l0 : LinkerData) (lrest : List LinkerData)
    (hint : ∃ s ∈ sbus, intersects s l0 = true) :
    (lcState auto delta depth anchorSet intersects sbus (l0 :: lrest)).1 ≠ [] := by
  obtain ⟨s, hs, hsl⟩ := hint
  unfold lcState
  rw [lcState_rows auto delta depth anchorSet intersects (l0 :: lrest) sbus ([], [])]
  intro hnil
  have hmem : (lcRow auto delta depth anchorSet l0).2 ∈
      (sbus.map (fun s => ((l0 :: lrest).filter (intersects s)).map
        (fun l => (lcRow auto delta depth anchorSet l).2))).flatten := by
    rw [List.mem_flatten]
    refine ⟨((l0 :: lrest).filter (intersects s)).map
      (fun l => (lcRow auto delta depth anchorSet l).2), List.mem_map_of_mem _ hs, ?_⟩
    exact List.mem_map_of_mem _ (List.mem_filter.2 ⟨List.mem_cons_self l0 lrest, hsl⟩)
  rw [List.nil_append] at hnil
  rw [hnil] at hmem
  exact absurd hmem (List.not_mem_nil _)

/-- The linker column-name list has `5*(depth+1)` entries. -/
theorem ligColnames_length (depth : ℕ) :
    (ligColnames depth).length = 5 * (depth + 1) := by
  simp [ligColnames, lig_property_labels]
  omega

/-- Each per-linker value row has `5*(depth+1)` entries when the
full-autocorrelation kernel yields `depth+1` values per property. -/
theorem ligRowVals_length (ligK : String → LinkerData → List ℚ) (depth : ℕ)
    (lk : LinkerData) (hlig : ∀ p lk2, (ligK p lk2).length = depth + 1) :
    (ligRowVals ligK lk).length = 5 * (depth + 1) := by
  simp [ligRowVals, lig_property_labels, hlig]
  omega

/-- C4: for every run that the pipeline accepts and featurizes (at least
one SBU, at least one linker, well-formed kernels, and linker 0 attached
to some SBU so the lc names are assigned), the returned
`full_names`/`full_descriptors` pair is parallel:
`len(full_names) == len(full_descriptors)`.  Every value is a finite
number by construction, since the embedding carries descriptor values in
`ℚ` and the averages are rationals of rationals. -/
theorem c4_full_names_values_parallel {S M : Type}
    (fK : RACKernel S) (mcK dmcK : RACKernel M)
    (auto delta : RACKernel (LinkerData × List ℕ))
    (ligK : String → LinkerData → List ℚ) (molcif : M) (depth : ℕ)
    (anchorSet : List ℕ) (intersects : S → LinkerData → Bool)
    (s0 : S) (srest : List S) (l0 : LinkerData) (lrest : List LinkerData)
    (hfK : (fK.colnames s0).length = (fK.results s0).length)
    (hmc : (mcK.colnames molcif).length = (mcK.results molcif).length)
    (hdmc : (dmcK.colnames molcif).length = (dmcK.results molcif).length)
    (hautoN : ∀ x, (auto.colnames x).length = 6 * (depth + 1))
    (hautoR : ∀ x, (auto.results x).length = 6 * (depth + 1))
    (hdeltaN : ∀ x, (delta.colnames x).length = 6 * (depth + 1))
    (hdeltaR : ∀ x, (delta.results x).length = 6 * (depth + 1))
    (hlig : ∀ p lk, (ligK p lk).length = depth + 1)
    (hint : ∃ s ∈ s0 :: srest, intersects s l0 = true) :
    (full_feature_vector fK mcK dmcK auto delta ligK molcif depth anchorSet intersects
      (s0 :: srest) (l0 :: lrest)).1.length =
    (full_feature_vector fK mcK dmcK auto delta ligK molcif depth anchorSet intersects
      (s0 :: srest) (l0 :: lrest)).2.length := by
  have hany : ((s0 :: srest).any fun s => intersects s l0) = true :=
    List.any_eq_true.2 (by obtain ⟨s, hs, hsl⟩ := hint; exact ⟨s, hs, hsl⟩)
  have hlcN : (lcState auto delta depth anchorSet intersects (s0 :: srest)
      (l0 :: lrest)).2.length = 24 * (depth + 1) := by
    unfold lcState
    rw [lcState_names_aux auto delta depth anchorSet intersects l0 lrest (s0 :: srest)
      ([], []), if_pos hany]
    exact lcRow_names_length auto delta depth anchorSet l0 hautoN hdeltaN
  have hnenil := lcState_rows_ne_nil auto delta depth anchorSet intersects (s0 :: srest)
    l0 lrest hint
  obtain ⟨r0, rrest, hrows⟩ := List.exists_cons_of_ne_nil hnenil
  have hr0 : r0.length = 24 * (depth + 1) :=
    lcState_rows_length auto delta depth anchorSet intersects (s0 :: srest) (l0 :: lrest)
      hautoR hdeltaR r0 (by rw [hrows]; exact List.mem_cons_self _ _)
  have hlcV : (npMean0 (lcState auto delta depth anchorSet intersects (s0 :: srest)
      (l0 :: lrest)).1).length = 24 * (depth + 1) := by
    rw [hrows, npMean0_length_cons, hr0]
  have hsbuN : (sbuRowNames fK mcK dmcK molcif s0).length =
      (sbuRowVals fK mcK dmcK molcif s0).length := by
    simp [sbuRowNames, sbuRowVals, featureTag_length, hfK, hmc, hdmc]
  have hsbuV : (npMean0 ((s0 :: srest).map (sbuRowVals fK mcK dmcK molcif))).length =
      (sbuRowVals fK mcK dmcK molcif s0).length := by
    rw [List.map_cons, npMean0_length_cons]
  have hligV : (npMean0 ((l0 :: lrest).map (ligRowVals ligK))).length =
      5 * (depth + 1) := by
    rw [List.map_cons, npMean0_length_cons]
    exact ligRowVals_length ligK depth l0 hlig
  have hfull : full_feature_vector fK mcK dmcK auto delta ligK molcif depth anchorSet
      intersects (s0 :: srest) (l0 :: lrest) =
      (sbuRowNames fK mcK dmcK molcif s0 ++ ligColnames depth ++
        (lcState auto delta depth anchorSet intersects (s0 :: srest) (l0 :: lrest)).2,
       npMean0 ((s0 :: srest).map (sbuRowVals fK mcK dmcK molcif)) ++
        npMean0 ((l0 :: lrest).map (ligRowVals ligK)) ++
        npMean0 (lcState auto delta depth anchorSet intersects (s0 :: srest)
          (l0 :: lrest)).1) := rfl
  rw [hfull]
  simp only [List.length_append]
  rw [hlcN, hlcV, hsbuN, hsbuV, hligV, ligColnames_length]

/-- C4 witness: the theorem applied to one SBU, one linker and concrete
depth-0 kernels. -/
theorem c4_full_names_values_parallel_witness :
    (full_feature_vector w_fK w_mcK w_dmcK w_auto w_delta w_ligK () 0 w_anchor_set
      (fun _ _ => true) [0] [c7_linker]).1.length =
    (full_feature_vector w_fK w_mcK w_dmcK w_auto w_delta w_ligK () 0 w_anchor_set
      (fun _ _ => true) [0] [c7_linker]).2.length :=
  c4_full_names_values_parallel w_fK w_mcK w_dmcK w_auto w_delta w_ligK () 0
    w_anchor_set (fun _ _ => true) 0 [] c7_linker []
    rfl rfl rfl (fun _ => rfl) (fun _ => rfl) (fun _ => rfl) (fun _ => rfl)
    (fun _ _ => rfl) ⟨0, List.mem_cons_self 0 [], rfl⟩
